import Mathlib

/-!
Formal model of the cleanhttp package (cleanhttp.go): a rule-based
classifier that matches an HTTP response against per-provider WAF/CDN
detection rules.  Pure Go functions are translated to Lean functions;
the external standard-library pieces the code calls (strings.Contains,
strings.ToLower for ASCII, strconv.Atoi, net/url parsing restricted to
the URL shapes the matcher exercises, and compiled regexps viewed
through their MatchString method) are modelled explicitly below, each
with a comment stating the modelled behaviour.
-/

namespace Cleanhttp

/-! ## String primitives (models of Go strings/strconv helpers) -/

/-- Model of strings.ToLower restricted to ASCII: an upper-case ASCII
letter is shifted by 32, every other character is unchanged. -/
def lowerChar (c : Char) : Char :=
  if 65 ≤ c.toNat ∧ c.toNat ≤ 90 then Char.ofNat (c.toNat + 32) else c

/-- Lower-case an entire string, character by character. -/
def lowerStr (s : String) : String := ⟨s.data.map lowerChar⟩

/-- Prefix test on character lists, recursing on the pattern first.
Models strings.HasPrefix; the empty pattern is a prefix of everything. -/
def isPrefixOfCh : List Char → List Char → Bool
  | [], _ => true
  | a :: as, l =>
    match l with
    | [] => false
    | b :: bs => a == b && isPrefixOfCh as bs

/-- Containment of sub as a contiguous run inside s, on character lists.
Models strings.Contains: the empty pattern is contained in every string. -/
def listContainsSub (sub : List Char) : List Char → Bool
  | [] => sub.isEmpty
  | c :: t => isPrefixOfCh sub (c :: t) || listContainsSub sub t

/-- Model of strings.Contains on strings. -/
def strContains (s sub : String) : Bool := listContainsSub sub.data s.data

/-- Split a character list on a separator character, keeping empty
segments.  Models strings.Split with a one-character separator: the
split of the empty string is one empty segment. -/
def splitOnCharL (sep : Char) : List Char → List (List Char)
  | [] => [[]]
  | a :: t =>
    match splitOnCharL sep t with
    | [] => [[]]
    | h :: r => if a == sep then [] :: h :: r else (a :: h) :: r

/-- ASCII decimal digit test, stated on the code point. -/
def isDigitCh (c : Char) : Bool := decide (48 ≤ c.toNat ∧ c.toNat ≤ 57)

/-- Numeric value of a list of decimal digit characters. -/
def digitsVal (ds : List Char) : Nat := ds.foldl (fun n c => n * 10 + (c.toNat - 48)) 0

/-- Model of strconv.Atoi: an optional single leading sign followed by
one or more decimal digits parses to the signed value; anything else is
an error (none).  Range overflow of the 64-bit int is not modelled: the
matcher only ever compares HTTP status codes and ports. -/
def atoi (s : String) : Option Int :=
  match s.data with
  | [] => none
  | '+' :: ds => if ds ≠ [] ∧ ds.all isDigitCh = true then some (digitsVal ds : Nat) else none
  | '-' :: ds => if ds ≠ [] ∧ ds.all isDigitCh = true then some (-(digitsVal ds : Nat)) else none
  | c :: ds => if (c :: ds).all isDigitCh = true then some (digitsVal (c :: ds) : Nat) else none

/-! ## URL model (the slice of net/url the matcher uses) -/

/-- The three URL components the matcher reads or writes: Scheme, Host
(authority, possibly carrying a :port suffix) and Path. -/
structure URL where
  scheme : String
  host : String
  path : String
deriving Repr, DecidableEq

/-- Model of URL.IsAbs: a URL is absolute iff it has a scheme. -/
def URL.isAbs (u : URL) : Bool := u.scheme ≠ ""

/-- ASCII control character test: these are the bytes net/url refuses. -/
def isCtl (c : Char) : Bool := decide (c.toNat < 32 ∨ c.toNat = 127)

/-- Split a list at the first occurrence of sep: some (before, after)
with the separator removed, or none if sep never occurs. -/
def splitFirstAux (sep : List Char) : List Char → Option (List Char × List Char)
  | [] => none
  | c :: t =>
    if isPrefixOfCh sep (c :: t) then some ([], (c :: t).drop sep.length)
    else
      match splitFirstAux sep t with
      | some (a, b) => some (c :: a, b)
      | none => none

/-- A valid scheme: a letter followed by letters, digits, plus, minus
or dot (RFC 3986, as enforced by net/url getScheme). -/
def schemeValid : List Char → Bool
  | [] => false
  | c :: rest => c.isAlpha && rest.all (fun d => d.isAlphanum || d == '+' || d == '-' || d == '.')

/-- Characters that may appear in the authority: everything up to the
first slash, question mark or hash. -/
def authChar (c : Char) : Bool := !(c == '/' || c == '?' || c == '#')

/-- Characters that may appear in the path: everything up to the first
question mark or hash. -/
def pathChar (c : Char) : Bool := !(c == '?' || c == '#')

/-- Model of url.Parse restricted to the forms the matcher meets:
scheme://authority/path URLs, protocol-relative //authority/path
references, and plain relative references.  Faithful behaviours kept:
a control character anywhere is a parse error; an empty scheme before
:// is a parse error (missing protocol scheme); the scheme is
lower-cased; the query and fragment are cut off the path.  Percent
decoding, opaque scheme:data forms and IPv6 brackets are outside the
modelled slice (the matcher never exercises them). -/
def urlParse (s : String) : Option URL :=
  if s.data.any isCtl = true then none
  else
    match splitFirstAux [':', '/', '/'] s.data with
    | some (sch, rest) =>
      if sch = [] then none
      else if schemeValid sch = true then
        some { scheme := lowerStr ⟨sch⟩, host := ⟨rest.takeWhile authChar⟩,
               path := ⟨(rest.dropWhile authChar).takeWhile pathChar⟩ }
      else some { scheme := "", host := "", path := ⟨s.data.takeWhile pathChar⟩ }
    | none =>
      match s.data with
      | '/' :: '/' :: rest =>
        some { scheme := "", host := ⟨rest.takeWhile authChar⟩,
               path := ⟨(rest.dropWhile authChar).takeWhile pathChar⟩ }
      | _ => some { scheme := "", host := "", path := ⟨s.data.takeWhile pathChar⟩ }

/-- The suffix of a list after its last colon, or none when the list
has no colon. -/
def afterLastColon : List Char → Option (List Char)
  | [] => none
  | c :: t =>
    match afterLastColon t with
    | some r => some r
    | none => if c == ':' then some t else none

/-- Model of URL.Port: the digits after the last colon of the host, or
the empty string when the host has no colon or the suffix is not all
digits (validOptionalPort in net/url). -/
def URL.port (u : URL) : String :=
  match afterLastColon u.host.data with
  | none => ""
  | some suf => if suf.all isDigitCh = true then ⟨suf⟩ else ""

/-- Model of getPortFromURL: the explicit numeric port when present,
else the scheme default (443 for https, 80 for http), else 0. -/
def getPortFromURL (u : URL) : Int :=
  let port := u.port
  match (if port ≠ "" then atoi port else none) with
  | some p => p
  | none => if u.scheme = "https" then 443 else if u.scheme = "http" then 80 else 0

/-! ## Data model (cleanhttp.go) -/

/-- A compiled regular expression is used by the matcher only through
its MatchString method, so it is modelled as that method. -/
abbrev RegexpM := String → Bool

/-- Response contains the HTTP response data to match against.  The Go
header map is modelled as an association list of key-value pairs
(distinct keys) read through headerLookup. -/
structure Response where
  StatusCode : Int := 0
  Headers : List (String × String) := []
  Body : String := ""
  Title : String := ""
  RequestURL : String := ""

/-- CheckRedirect represents redirect checking configuration. -/
structure CheckRedirect where
  SourcePorts : List Int
  TargetPorts : List Int
  RedirectToRootHost : Bool
deriving Repr, DecidableEq

/-- RuleJSON represents the JSON structure for loading rules, with all
fields optional (defaulting to empty). -/
structure RuleJSON where
  HTTPStatusCode : String := ""
  HTTPHeader : List (String × String) := []
  HTTPBody : List String := []
  HTTPBodyRegex : List String := []
  HTTPTitle : String := ""
  CheckRedirectSpec : Option CheckRedirect := none

/-- Rule contains the compiled patterns for matching. -/
structure Rule where
  StatusMin : Int := 0
  StatusMax : Int := 0
  Headers : List (String × String) := []
  BodyContains : List String := []
  BodyRegex : List RegexpM := []
  TitleExact : String := ""
  RedirectCheck : Option CheckRedirect := none

/-- Matcher handles the WAF/CDN detection rules: a mapping from
provider identifier to compiled rule, modelled as an association list
(a Go map has distinct keys, stated where a claim needs it). -/
structure Matcher where
  rules : List (String × Rule)

/-! ## Rule compilation -/

/-- An error produced while compiling one rule, carrying the offending
text exactly as the Go error message does. -/
inductive CompileErr where
  | invalidStatusFormat (spec : String)
  | invalidBodyRegex (pattern : String)
deriving Repr, DecidableEq

/-- A load error: the provider whose rule failed to compile together
with the underlying cause, as wrapped by NewMatcher and AddRules. -/
structure LoadErr where
  provider : String
  cause : CompileErr
deriving Repr, DecidableEq

/-- Compile the body regex patterns in order through the external
regexp compiler rc; the first pattern that fails to compile aborts with
an error naming it, and no partial list is returned. -/
def compileRegexes (rc : String → Option RegexpM) : List String → Except CompileErr (List RegexpM)
  | [] => .ok []
  | p :: rest =>
    match rc p with
    | none => .error (.invalidBodyRegex p)
    | some re => (compileRegexes rc rest).map (fun l => re :: l)

/-- compileRule converts a JSON rule into a compiled Rule: header names
are lower-cased; a nonempty status spec is split on the dash, one part
sets both bounds when it parses (and is silently ignored when it does
not), two parts set the bounds only when both are positive, and any
other part count is an invalid-format error; body regexes are compiled
eagerly through rc. -/
def compileRule (rc : String → Option RegexpM) (jr : RuleJSON) : Except CompileErr Rule := do
  let headers := jr.HTTPHeader.map (fun kv => (lowerStr kv.1, kv.2))
  let bounds ←
    if jr.HTTPStatusCode = "" then pure ((0 : Int), (0 : Int))
    else
      match (splitOnCharL '-' jr.HTTPStatusCode.data).map (fun l => (⟨l⟩ : String)) with
      | [p] =>
        pure (match atoi p with
              | some status => (status, status)
              | none => ((0 : Int), (0 : Int)))
      | [p, q] =>
        pure (let mn := (atoi p).getD 0
              let mx := (atoi q).getD 0
              if 0 < mn ∧ 0 < mx then (mn, mx) else ((0 : Int), (0 : Int)))
      | _ => throw (.invalidStatusFormat jr.HTTPStatusCode)
  let regexes ← compileRegexes rc jr.HTTPBodyRegex
  pure { StatusMin := bounds.1, StatusMax := bounds.2, Headers := headers,
         BodyContains := jr.HTTPBody, BodyRegex := regexes,
         TitleExact := jr.HTTPTitle, RedirectCheck := jr.CheckRedirectSpec }

/-! ## Matching -/

/-- First value stored under key k in an association list, as a Go map
lookup. -/
def headerLookup (hs : List (String × String)) (k : String) : Option String :=
  (hs.find? (fun kv => kv.1 == k)).map (fun kv => kv.2)

/-- The normalized header view Match builds before evaluating rules:
every key lower-cased. -/
def lowerHeaders (hs : List (String × String)) : List (String × String) :=
  hs.map (fun kv => (lowerStr kv.1, kv.2))

/-- matchRedirectRule checks if a response matches redirect rules:
parse the request URL (failure means no match), require its effective
port in SourcePorts, look up the location header, parse it (failure
means no match), resolve a relative location against the original
scheme and host, require a root path when RedirectToRootHost is set,
and require the location's effective port in TargetPorts. -/
def matchRedirectRule (resp : Response) (redirectRule : CheckRedirect) : Bool :=
  match urlParse resp.RequestURL with
  | none => false
  | some parsedOriginalURL =>
    let originalPort := getPortFromURL parsedOriginalURL
    if redirectRule.SourcePorts.contains originalPort = false then false
    else
      match headerLookup resp.Headers "location" with
      | none => false
      | some location =>
        match urlParse location with
        | none => false
        | some parsedLocation =>
          let resolved :=
            if parsedLocation.isAbs = false then
              { parsedLocation with scheme := parsedOriginalURL.scheme,
                                    host := parsedOriginalURL.host }
            else parsedLocation
          if redirectRule.RedirectToRootHost ∧ resolved.path ≠ "/" ∧ resolved.path ≠ "" then false
          else redirectRule.TargetPorts.contains (getPortFromURL resolved)

/-- matchRule checks if a response matches a specific rule, failing at
the first unsatisfied predicate exactly as the Go early returns do. -/
def matchRule (resp : Response) (rule : Rule) : Bool :=
  if rule.StatusMin ≠ 0 ∧ resp.StatusCode < rule.StatusMin then false
  else if rule.StatusMax ≠ 0 ∧ resp.StatusCode > rule.StatusMax then false
  else if (rule.Headers.all fun hp =>
      match headerLookup resp.Headers hp.1 with
      | some v => strContains v hp.2
      | none => false) = false then false
  else if (rule.BodyContains.all fun pat => strContains resp.Body pat) = false then false
  else if (rule.BodyRegex.all fun re => re resp.Body) = false then false
  else if rule.TitleExact ≠ "" ∧ resp.Title ≠ rule.TitleExact then false
  else
    match rule.RedirectCheck with
    | some rcheck => matchRedirectRule resp rcheck
    | none => true

/-- Match returns the names of WAF/CDN providers that match the
response: headers are lower-cased once, then every provider whose rule
matches is collected (the stored order stands in for Go's map
iteration order). -/
def Matcher.Match (m : Matcher) (resp : Response) : List String :=
  let resp := { resp with Headers := lowerHeaders resp.Headers }
  (m.rules.filter (fun pr => matchRule resp pr.2)).map (fun pr => pr.1)

/-! ## Loading and merging -/

/-- Whether the matcher already has an entry for provider p. -/
def hasProvider (m : Matcher) (p : String) : Bool := m.rules.any (fun kv => kv.1 == p)

/-- Go map assignment rules[p] = r on the association list: replace
the existing entry for p, or append a new one. -/
def installRule (m : Matcher) (p : String) (r : Rule) : Matcher :=
  if m.rules.any (fun kv => kv.1 == p) then
    ⟨m.rules.map (fun kv => if kv.1 == p then (p, r) else kv)⟩
  else ⟨m.rules ++ [(p, r)]⟩

/-- AddRules after JSON decoding: walk the providers in encounter
order, compiling and installing each into the live matcher; the first
compilation failure stops the walk and reports the provider, leaving
everything installed so far in place. -/
def AddRulesList (rc : String → Option RegexpM) (m : Matcher) :
    List (String × RuleJSON) → Matcher × Option LoadErr
  | [] => (m, none)
  | (p, jr) :: rest =>
    match compileRule rc jr with
    | .error e => (m, some ⟨p, e⟩)
    | .ok r => AddRulesList rc (installRule m p r) rest

/-- The compilation loop of NewMatcher: build a fresh rule map from the
decoded providers; the first compilation failure aborts the whole
construction with the provider attached. -/
def compileServices (rc : String → Option RegexpM) :
    List (String × RuleJSON) → Matcher → Except LoadErr Matcher
  | [], m => .ok m
  | (p, jr) :: rest, m =>
    match compileRule rc jr with
    | .error e => .error ⟨p, e⟩
    | .ok r => compileServices rc rest (installRule m p r)

/-- NewMatcher after reading and JSON-decoding the rules source. -/
def NewMatcherCompile (rc : String → Option RegexpM)
    (services : List (String × RuleJSON)) : Except LoadErr Matcher :=
  compileServices rc services ⟨[]⟩

/-- Whether an Except is a success. -/
def exceptOk {ε α : Type} : Except ε α → Bool
  | .ok _ => true
  | .error _ => false

/-! ## Specification-side definitions -/

/-- The rule with no populated predicate: both status bounds at the
unbounded sentinel 0, no required headers, no body substrings, no body
regexes, empty title, no redirect spec. -/
def emptyRule : Rule := {}

/-- Written from the specification text: the response matches a
provider iff every populated predicate of the provider's compiled rule
holds, each evaluated independently against the normalized
(lower-cased-key) header view: status lower bound (when non-zero),
status upper bound (when non-zero), every required header substring,
every required body substring, every body regex, the exact title (when
non-empty), and the redirect correlation (when present). -/
def SpecMatch (resp : Response) (rule : Rule) : Prop :=
  (rule.StatusMin = 0 ∨ rule.StatusMin ≤ resp.StatusCode) ∧
  (rule.StatusMax = 0 ∨ resp.StatusCode ≤ rule.StatusMax) ∧
  (rule.Headers.all fun hp =>
    match headerLookup (lowerHeaders resp.Headers) hp.1 with
    | some v => strContains v hp.2
    | none => false) = true ∧
  (rule.BodyContains.all fun pat => strContains resp.Body pat) = true ∧
  (rule.BodyRegex.all fun re => re resp.Body) = true ∧
  (rule.TitleExact = "" ∨ resp.Title = rule.TitleExact) ∧
  (∀ rcheck, rule.RedirectCheck = some rcheck →
     matchRedirectRule { resp with Headers := lowerHeaders resp.Headers } rcheck = true)

/-- A regexp compiler that rejects every pattern; used to instantiate
rule sets that carry no regex patterns in concrete scenarios. -/
def rcW : String → Option RegexpM := fun _ => none

/-- The response used by the redirect-correlation scenarios: original
request https on port 2052 of example.com, and a Location header
(matching case-insensitively through the normalized header view). -/
def redirectResp (loc : String) : Response :=
  { StatusCode := 301, Headers := lowerHeaders [("Location", loc)],
    RequestURL := "https://example.com:2052/" }

/-- The compiled form of a rule requiring header Server to contain
cloudflare: the key is stored lower-cased. -/
def rule4 : Rule := { Headers := [("server", "cloudflare")] }

/-- A plain host-name character: an ASCII letter, digit, dot or
hyphen.  Such characters are never control characters and never the
delimiters the URL parser splits on. -/
def hostChar (c : Char) : Bool :=
  decide ((65 ≤ c.toNat ∧ c.toNat ≤ 90) ∨ (97 ≤ c.toNat ∧ c.toNat ≤ 122) ∨
          (48 ≤ c.toNat ∧ c.toNat ≤ 57) ∨ c.toNat = 46 ∨ c.toNat = 45)

/-! ## Helper lemmas -/

/-- The early-return chain of matchRule is equivalent to the
conjunction of its individual predicates. -/
theorem matchRule_eq_true_iff (resp : Response) (rule : Rule) :
    matchRule resp rule = true ↔
      ((rule.StatusMin = 0 ∨ rule.StatusMin ≤ resp.StatusCode) ∧
       (rule.StatusMax = 0 ∨ resp.StatusCode ≤ rule.StatusMax) ∧
       (rule.Headers.all fun hp =>
         match headerLookup resp.Headers hp.1 with
         | some v => strContains v hp.2
         | none => false) = true ∧
       (rule.BodyContains.all fun pat => strContains resp.Body pat) = true ∧
       (rule.BodyRegex.all fun re => re resp.Body) = true ∧
       (rule.TitleExact = "" ∨ resp.Title = rule.TitleExact) ∧
       (∀ rcheck, rule.RedirectCheck = some rcheck →
          matchRedirectRule resp rcheck = true)) := by
  unfold matchRule
  repeat' split
  all_goals simp_all
  all_goals tauto

/-- MatchRule on the normalized response coincides with the
specification-side predicate conjunction on the raw response. -/
theorem spec_match_iff (resp : Response) (rule : Rule) :
    matchRule { resp with Headers := lowerHeaders resp.Headers } rule = true ↔
      SpecMatch resp rule := by
  rw [matchRule_eq_true_iff]
  exact Iff.rfl

/-! ## Claims -/

/-- Claim C1: for every matcher and response, Match returns exactly the
providers whose compiled rule has all of its populated predicates
satisfied by the response, and a rule with no populated predicates
matches every response. -/
theorem claim1_match_iff_all_predicates (m : Matcher) (resp : Response) (provider : String) :
    (provider ∈ m.Match resp ↔ ∃ rule, (provider, rule) ∈ m.rules ∧ SpecMatch resp rule) ∧
    (∀ r2 : Response, matchRule r2 emptyRule = true) := by
  refine ⟨?_, ?_⟩
  · simp only [Matcher.Match, List.mem_map, List.mem_filter]
    constructor
    · rintro ⟨pr, ⟨hmem, hmatch⟩, hfst⟩
      cases pr with
      | mk a b =>
        cases hfst
        exact ⟨b, hmem, (spec_match_iff resp b).1 hmatch⟩
    · rintro ⟨rule, hmem, hspec⟩
      exact ⟨(provider, rule), ⟨hmem, (spec_match_iff resp rule).2 hspec⟩, rfl⟩
  · intro r2
    simp [matchRule, emptyRule]

/-- Claim C2: with source ports [2052], target ports [443] and
root-required true, the redirect predicate holds for request
https://example.com:2052/ redirecting to https://example.com/; it
fails whenever the source-port set does not contain 2052, for location
https://example.com:8080/ (target port not in [443]), and for location
https://example.com/path (path not root). -/
theorem claim2_redirect_scenarios :
    matchRedirectRule (redirectResp "https://example.com/") ⟨[2052], [443], true⟩ = true ∧
    (∀ sp : List Int, sp.contains 2052 = false →
      matchRedirectRule (redirectResp "https://example.com/") ⟨sp, [443], true⟩ = false) ∧
    matchRedirectRule (redirectResp "https://example.com:8080/") ⟨[2052], [443], true⟩ = false ∧
    matchRedirectRule (redirectResp "https://example.com/path") ⟨[2052], [443], true⟩ = false := by
  refine ⟨by decide, ?_, by decide, by decide⟩
  intro sp hsp
  have hp : urlParse "https://example.com:2052/" = some ⟨"https", "example.com:2052", "/"⟩ := by
    decide
  have hport : getPortFromURL ⟨"https", "example.com:2052", "/"⟩ = 2052 := by decide
  simp only [matchRedirectRule, redirectResp, hp, hport, hsp]
  simp

/-- Witness for C2 at the concrete changed source-port set [9999]. -/
theorem claim2_redirect_scenarios_witness :
    matchRedirectRule (redirectResp "https://example.com/") ⟨[9999], [443], true⟩ = false :=
  claim2_redirect_scenarios.2.1 [9999] (by decide)

/-- Claim C3: a one-part numeric status spec such as 503 sets both
bounds to that value so exactly that status matches; a two-part spec
such as 200-299 is an inclusive range (200 and 299 match, 199 and 300
do not); a two-part spec either of whose parts parses to zero or a
non-positive number leaves both bounds at the unbounded sentinel 0, so
no status constraint is applied at match time. -/
theorem claim3_status_compile (rc : String → Option RegexpM) :
    (compileRule rc { HTTPStatusCode := "503" } = .ok { StatusMin := 503, StatusMax := 503 } ∧
     ∀ st : Int,
       matchRule { StatusCode := st } { StatusMin := 503, StatusMax := 503 } = true ↔ st = 503) ∧
    (compileRule rc { HTTPStatusCode := "200-299" } = .ok { StatusMin := 200, StatusMax := 299 } ∧
     matchRule { StatusCode := 200 } { StatusMin := 200, StatusMax := 299 } = true ∧
     matchRule { StatusCode := 299 } { StatusMin := 200, StatusMax := 299 } = true ∧
     matchRule { StatusCode := 199 } { StatusMin := 200, StatusMax := 299 } = false ∧
     matchRule { StatusCode := 300 } { StatusMin := 200, StatusMax := 299 } = false) ∧
    (∀ spec p q : String,
      (splitOnCharL '-' spec.data).map (fun l => (⟨l⟩ : String)) = [p, q] →
      (atoi p).getD 0 ≤ 0 ∨ (atoi q).getD 0 ≤ 0 →
      compileRule rc { HTTPStatusCode := spec } = .ok emptyRule ∧
      ∀ resp : Response, matchRule resp emptyRule = true) := by
  refine ⟨⟨rfl, ?_⟩, ⟨rfl, by decide, by decide, by decide, by decide⟩, ?_⟩
  · intro st
    rw [matchRule_eq_true_iff]
    simp
    omega
  · intro spec p q hsplit hnp
    have hne : spec ≠ "" := by
      intro h
      subst h
      simp [splitOnCharL] at hsplit
    constructor
    · unfold compileRule
      rw [if_neg hne, hsplit]
      have hcond : ¬(0 < (atoi p).getD 0 ∧ 0 < (atoi q).getD 0) := by omega
      simp only [if_neg hcond]
      rfl
    · intro resp
      simp [matchRule, emptyRule]

/-- Witness for C3 at the concrete two-part spec 0-299 whose first
part parses to zero: compilation yields the unconstrained rule and an
arbitrary status passes. -/
theorem claim3_status_compile_witness :
    compileRule rcW { HTTPStatusCode := "0-299" } = .ok emptyRule ∧
    matchRule { StatusCode := 977 } emptyRule = true := by
  have h := (claim3_status_compile rcW).2.2 "0-299" "0" "299" (by decide) (Or.inl (by decide))
  exact ⟨h.1, h.2 { StatusCode := 977 }⟩

/-- Claim C4: header matching is case-insensitive on the header name
and case-sensitive substring containment on the value: the rule
requiring header Server to contain cloudflare matches a response whose
header key is SERVER, Server or server with value cloudflare-nginx,
and does not match the capitalized value Cloudflare. -/
theorem claim4_header_case (rc : String → Option RegexpM) :
    compileRule rc { HTTPHeader := [("Server", "cloudflare")] } = .ok rule4 ∧
    Matcher.Match ⟨[("prov", rule4)]⟩ { Headers := [("SERVER", "cloudflare-nginx")] } = ["prov"] ∧
    Matcher.Match ⟨[("prov", rule4)]⟩ { Headers := [("Server", "cloudflare-nginx")] } = ["prov"] ∧
    Matcher.Match ⟨[("prov", rule4)]⟩ { Headers := [("server", "cloudflare-nginx")] } = ["prov"] ∧
    Matcher.Match ⟨[("prov", rule4)]⟩ { Headers := [("SERVER", "Cloudflare")] } = [] :=
  ⟨rfl, by decide, by decide, by decide, by decide⟩

/-- Unfolding of Match through its header normalization. -/
theorem Match_def (m : Matcher) (resp : Response) :
    m.Match resp =
      (m.rules.filter fun pr =>
        matchRule { resp with Headers := lowerHeaders resp.Headers } pr.2).map (fun pr => pr.1) :=
  rfl

/-- Congruence for List.any under a pointwise equal predicate. -/
theorem anyCongrAux {α : Type} (f g : α → Bool) (l : List α)
    (h : ∀ a ∈ l, f a = g a) : l.any f = l.any g := by
  induction l with
  | nil => rfl
  | cons a t ih =>
    simp only [List.any_cons]
    rw [h a (by simp), ih (fun b hb => h b (by simp [hb]))]

/-- Installing a rule for p makes p present. -/
theorem hp_install_self (m : Matcher) (p : String) (r : Rule) :
    hasProvider (installRule m p r) p = true := by
  unfold hasProvider installRule
  split
  · rename_i h
    simp only [List.any_map, List.any_eq_true] at h ⊢
    obtain ⟨kv, hmem, hkv⟩ := h
    refine ⟨kv, hmem, ?_⟩
    simp [Function.comp, hkv]
  · simp [List.any_append]

/-- Installing a rule never removes an existing provider. -/
theorem hp_install_of (m : Matcher) (p : String) (r : Rule) (x : String)
    (h : hasProvider m x = true) : hasProvider (installRule m p r) x = true := by
  unfold hasProvider installRule
  unfold hasProvider at h
  split
  · simp only [List.any_map, List.any_eq_true] at h ⊢
    obtain ⟨kv, hmem, hkv⟩ := h
    refine ⟨kv, hmem, ?_⟩
    by_cases hp : (kv.1 == p) = true
    · simp only [Function.comp, beq_iff_eq] at hkv hp ⊢
      rw [if_pos hp]
      exact hp.symm.trans hkv
    · simp only [Function.comp, beq_iff_eq] at hkv hp ⊢
      rw [if_neg hp]
      exact hkv
  · simp only [List.any_append, Bool.or_eq_true]
    exact Or.inl h

/-- Installing a rule for p does not affect presence of any other
provider name. -/
theorem hp_install_ne (m : Matcher) (p : String) (r : Rule) (x : String)
    (hx : x ≠ p) : hasProvider (installRule m p r) x = hasProvider m x := by
  unfold hasProvider installRule
  split
  · simp only [List.any_map]
    apply anyCongrAux
    intro kv _
    by_cases hp : (kv.1 == p) = true
    · simp only [Function.comp]
      simp only [beq_iff_eq] at hp
      subst hp
      simp [beq_eq_false_iff_ne, hx, Ne.symm hx]
    · simp only [beq_iff_eq] at hp
      simp [Function.comp, hp]
  · simp only [List.any_append, List.any_cons, List.any_nil]
    have hpx : (p == x) = false := beq_eq_false_iff_ne.2 (Ne.symm hx)
    simp [hpx]

/-- A provider present before AddRules is still present after it,
whatever happens to the batch. -/
theorem hp_addRules_mono (rc : String → Option RegexpM) (l : List (String × RuleJSON))
    (m : Matcher) (x : String) (h : hasProvider m x = true) :
    hasProvider (AddRulesList rc m l).1 x = true := by
  induction l generalizing m with
  | nil => exact h
  | cons q t ih =>
    cases q with
    | mk qp qr =>
      unfold AddRulesList
      cases hc : compileRule rc qr with
      | error e => exact h
      | ok r => exact ih _ (hp_install_of m qp r x h)

/-- Every hostChar character is harmless to the URL parser: not a
control character, not an authority or path delimiter, not a colon. -/
theorem hostChar_facts (c : Char) (h : hostChar c = true) :
    isCtl c = false ∧ authChar c = true ∧ pathChar c = true ∧ (c == ':') = false := by
  unfold hostChar at h
  rw [decide_eq_true_eq] at h
  have h1 : (c == '/') = false := by
    apply beq_eq_false_iff_ne.2
    intro he
    subst he
    revert h
    decide
  have h2 : (c == '?') = false := by
    apply beq_eq_false_iff_ne.2
    intro he
    subst he
    revert h
    decide
  have h3 : (c == '#') = false := by
    apply beq_eq_false_iff_ne.2
    intro he
    subst he
    revert h
    decide
  have h4 : (c == ':') = false := by
    apply beq_eq_false_iff_ne.2
    intro he
    subst he
    revert h
    decide
  refine ⟨?_, ?_, ?_, h4⟩
  · unfold isCtl
    rw [decide_eq_false_iff_not]
    omega
  · unfold authChar
    rw [h1, h2, h3]
    rfl
  · unfold pathChar
    rw [h2, h3]
    rfl

/-- takeWhile over an append whose first block satisfies the predicate
throughout. -/
theorem takeWhileAppend {α : Type} (p : α → Bool) (l1 l2 : List α)
    (h : ∀ a ∈ l1, p a = true) : (l1 ++ l2).takeWhile p = l1 ++ l2.takeWhile p := by
  induction l1 with
  | nil => rfl
  | cons a t ih =>
    simp only [List.cons_append, List.takeWhile_cons]
    rw [h a (by simp)]
    simp [ih (fun b hb => h b (by simp [hb]))]

/-- dropWhile over an append whose first block satisfies the predicate
throughout. -/
theorem dropWhileAppend {α : Type} (p : α → Bool) (l1 l2 : List α)
    (h : ∀ a ∈ l1, p a = true) : (l1 ++ l2).dropWhile p = l2.dropWhile p := by
  induction l1 with
  | nil => rfl
  | cons a t ih =>
    simp only [List.cons_append, List.dropWhile_cons]
    rw [h a (by simp)]
    simp [ih (fun b hb => h b (by simp [hb]))]

/-- A colon-free list has nothing after its last colon. -/
theorem afterLastColonNone (l : List Char) (h : ∀ c ∈ l, (c == ':') = false) :
    afterLastColon l = none := by
  induction l with
  | nil => rfl
  | cons a t ih =>
    simp only [afterLastColon]
    rw [ih (fun c hc => h c (by simp [hc])), h a (by simp)]
    rfl

/-- Parsing https://H/ for any plain host name H yields scheme https,
host H and root path. -/
theorem urlParse_abs_host (hl : List Char) (hh : (⟨hl⟩ : String).data.all hostChar = true) :
    urlParse ("https://" ++ (⟨hl⟩ : String) ++ "/") = some ⟨"https", ⟨hl⟩, "/"⟩ := by
  have hh2 : ∀ c ∈ hl, hostChar c = true := by simpa [List.all_eq_true] using hh
  have hdata : ("https://" ++ (⟨hl⟩ : String) ++ "/").data
      = 'h' :: 't' :: 't' :: 'p' :: 's' :: ':' :: '/' :: '/' :: (hl ++ ['/']) := rfl
  have hsp : splitFirstAux [':', '/', '/'] ('h' :: 't' :: 't' :: 'p' :: 's' :: ':' :: '/' :: '/' :: (hl ++ ['/']))
      = some (['h', 't', 't', 'p', 's'], hl ++ ['/']) := rfl
  have hctl : ('h' :: 't' :: 't' :: 'p' :: 's' :: ':' :: '/' :: '/' :: (hl ++ ['/'])).any isCtl = false := by
    rw [List.any_eq_false]
    intro x hx
    simp only [List.mem_cons, List.mem_append] at hx
    rcases hx with rfl | rfl | rfl | rfl | rfl | rfl | rfl | rfl | hx3
    · decide
    · decide
    · decide
    · decide
    · decide
    · decide
    · decide
    · decide
    rcases hx3 with hx4 | hx5
    · simp [(hostChar_facts x (hh2 x hx4)).1]
    · have hx6 : x = '/' := by simpa using hx5
      subst hx6
      decide
  have hauth : ∀ c ∈ hl, authChar c = true := fun c hc => (hostChar_facts c (hh2 c hc)).2.1
  unfold urlParse
  rw [hdata, hsp, hctl]
  simp only [Bool.false_eq_true, if_false]
  have hne : ¬(['h', 't', 't', 'p', 's'] = ([] : List Char)) := by decide
  rw [if_neg hne, if_pos (by decide : schemeValid ['h', 't', 't', 'p', 's'] = true)]
  rw [takeWhileAppend authChar hl ['/'] hauth, dropWhileAppend authChar hl ['/'] hauth]
  rw [show List.takeWhile authChar ['/'] = [] from rfl, List.append_nil]
  rfl

/-- A URL with a colon-free plain host and https scheme has effective
port 443. -/
theorem getPort_noColon (hl : List Char) (hh : (⟨hl⟩ : String).data.all hostChar = true) :
    getPortFromURL ⟨"https", ⟨hl⟩, "/"⟩ = 443 := by
  have hh2 : ∀ c ∈ hl, hostChar c = true := by simpa [List.all_eq_true] using hh
  have hcol : afterLastColon hl = none :=
    afterLastColonNone hl (fun c hc => (hostChar_facts c (hh2 c hc)).2.2.2)
  unfold getPortFromURL URL.port
  simp [hcol]

/-- Claim C5: AddRules is not atomic across a multi-provider batch:
when one provider's rule fails to compile, the call reports an error
naming that provider, providers encountered before the failure are
already merged into the live mapping and stay installed, and no new
provider encountered after the failure is installed. -/
theorem claim5_addrules_not_atomic (rc : String → Option RegexpM) (m : Matcher)
    (pre post : List (String × RuleJSON)) (p : String) (jr : RuleJSON)
    (hpre : ∀ q ∈ pre, exceptOk (compileRule rc q.2) = true)
    (hbad : exceptOk (compileRule rc jr) = false) :
    (∃ e, compileRule rc jr = .error e ∧
       (AddRulesList rc m (pre ++ (p, jr) :: post)).2 = some ⟨p, e⟩) ∧
    (∀ q ∈ pre, hasProvider (AddRulesList rc m (pre ++ (p, jr) :: post)).1 q.1 = true) ∧
    (∀ name : String, hasProvider m name = false → (∀ q ∈ pre, q.1 ≠ name) → name ≠ p →
       hasProvider (AddRulesList rc m (pre ++ (p, jr) :: post)).1 name = false) := by
  induction pre generalizing m with
  | nil =>
    simp only [List.nil_append]
    obtain ⟨e, he⟩ : ∃ e, compileRule rc jr = .error e := by
      cases hc : compileRule rc jr with
      | error e => exact ⟨e, rfl⟩
      | ok r => rw [hc] at hbad; simp [exceptOk] at hbad
    refine ⟨⟨e, he, ?_⟩, ?_, ?_⟩
    · unfold AddRulesList
      rw [he]
    · intro q hq
      cases hq
    · intro name hname h2 h3
      unfold AddRulesList
      rw [he]
      exact hname
  | cons q0 pre ih =>
    cases q0 with
    | mk qp qjr =>
      have hok := hpre (qp, qjr) (by simp)
      obtain ⟨r, hr⟩ : ∃ r, compileRule rc qjr = .ok r := by
        cases hc : compileRule rc qjr with
        | ok r => exact ⟨r, rfl⟩
        | error e => rw [hc] at hok; simp [exceptOk] at hok
      have step : AddRulesList rc m (((qp, qjr) :: pre) ++ (p, jr) :: post)
          = AddRulesList rc (installRule m qp r) (pre ++ (p, jr) :: post) := by
        simp only [List.cons_append, AddRulesList, hr]
        rfl
      have ihh := ih (installRule m qp r) (fun q hq => hpre q (by simp [hq]))
      refine ⟨?_, ?_, ?_⟩
      · obtain ⟨e, he1, he2⟩ := ihh.1
        refine ⟨e, he1, ?_⟩
        rw [step]
        exact he2
      · intro q hq
        rw [step]
        rcases List.mem_cons.1 hq with heq | hq2
        · have hfst : q.1 = qp := by rw [heq]
          rw [hfst]
          exact hp_addRules_mono rc _ _ qp (hp_install_self m qp r)
        · exact ihh.2.1 q hq2
      · intro name h1 h2 h3
        rw [step]
        have hnq : name ≠ qp := Ne.symm (h2 (qp, qjr) (by simp))
        apply ihh.2.2 name
        · rw [hp_install_ne m qp r name hnq]
          exact h1
        · intro q hq
          exact h2 q (by simp [hq])
        · exact h3

/-- Witness for C5: in a three-provider batch whose middle rule has the
malformed status spec a-b-c, the call errors, the first provider is
installed and stays, and the third provider is never installed. -/
theorem claim5_addrules_not_atomic_witness :
    (AddRulesList rcW ⟨[]⟩
      [("alpha", {}), ("broken", { HTTPStatusCode := "a-b-c" }), ("gamma", {})]).2.isSome
        = true ∧
    hasProvider (AddRulesList rcW ⟨[]⟩
      [("alpha", {}), ("broken", { HTTPStatusCode := "a-b-c" }), ("gamma", {})]).1 "alpha"
        = true ∧
    hasProvider (AddRulesList rcW ⟨[]⟩
      [("alpha", {}), ("broken", { HTTPStatusCode := "a-b-c" }), ("gamma", {})]).1 "gamma"
        = false := by
  have h := claim5_addrules_not_atomic rcW ⟨[]⟩ [("alpha", {})] [("gamma", {})] "broken"
    { HTTPStatusCode := "a-b-c" } (by decide) (by decide)
  obtain ⟨⟨e, he1, he2⟩, h2, h3⟩ := h
  refine ⟨?_, ?_, ?_⟩
  · rw [show (AddRulesList rcW ⟨[]⟩
        [("alpha", {}), ("broken", { HTTPStatusCode := "a-b-c" }), ("gamma", {})]).2
          = some ⟨"broken", e⟩ from he2]
    rfl
  · exact h2 ("alpha", {}) (by simp)
  · exact h3 "gamma" (by decide) (by decide) (by decide)

/-- Claim C6: a status spec that splits into three or more parts makes
rule compilation fail with an invalid-status-format error carrying the
offending text, and a whole load containing such a rule fails with the
offending provider attached. -/
theorem claim6_invalid_status_format (rc : String → Option RegexpM)
    (pre post : List (String × RuleJSON)) (p : String)
    (hpre : ∀ q ∈ pre, exceptOk (compileRule rc q.2) = true) :
    compileRule rc { HTTPStatusCode := "a-b-c" } = .error (.invalidStatusFormat "a-b-c") ∧
    NewMatcherCompile rc (pre ++ (p, { HTTPStatusCode := "a-b-c" }) :: post)
      = .error ⟨p, .invalidStatusFormat "a-b-c"⟩ := by
  refine ⟨rfl, ?_⟩
  unfold NewMatcherCompile
  suffices h : ∀ m0 : Matcher,
      compileServices rc (pre ++ (p, { HTTPStatusCode := "a-b-c" }) :: post) m0
        = .error ⟨p, .invalidStatusFormat "a-b-c"⟩ by
    exact h ⟨[]⟩
  induction pre with
  | nil =>
    intro m0
    have hb : compileRule rc { HTTPStatusCode := "a-b-c" }
        = .error (.invalidStatusFormat "a-b-c") := rfl
    simp only [List.nil_append, compileServices, hb]
  | cons q0 pre ih =>
    intro m0
    have hok := hpre q0 (by simp)
    obtain ⟨r, hr⟩ : ∃ r, compileRule rc q0.2 = .ok r := by
      cases hc : compileRule rc q0.2 with
      | ok r => exact ⟨r, rfl⟩
      | error e => rw [hc] at hok; simp [exceptOk] at hok
    cases q0 with
    | mk qp qjr =>
      simp only [List.cons_append, compileServices]
      rw [show compileRule rc qjr = .ok r from hr]
      exact ih (fun q hq => hpre q (by simp [hq])) (installRule m0 qp r)

/-- Witness for C6: loading three providers whose middle rule carries
the status spec a-b-c fails naming that provider and the bad spec. -/
theorem claim6_invalid_status_format_witness :
    NewMatcherCompile rcW
      [("alpha", {}), ("broken", { HTTPStatusCode := "a-b-c" }), ("gamma", {})]
      = .error ⟨"broken", .invalidStatusFormat "a-b-c"⟩ :=
  (claim6_invalid_status_format rcW [("alpha", {})] [("gamma", {})] "broken" (by decide)).2

/-- Claim C7: a malformed request URL or malformed location header only
makes that rule's redirect predicate fail; Match is a total function
returning a plain list, and every provider whose own rule matches is
still reported whatever other providers' rules do on the same
response. -/
theorem claim7_malformed_url_local (mm : Matcher) :
    (∀ (resp : Response) (rcheck : CheckRedirect),
       urlParse resp.RequestURL = none → matchRedirectRule resp rcheck = false) ∧
    (∀ (resp : Response) (rcheck : CheckRedirect) (loc : String),
       headerLookup resp.Headers "location" = some loc → urlParse loc = none →
       matchRedirectRule resp rcheck = false) ∧
    (∀ (resp : Response) (p : String) (rule : Rule),
       (p, rule) ∈ mm.rules →
       matchRule { resp with Headers := lowerHeaders resp.Headers } rule = true →
       p ∈ mm.Match resp) := by
  refine ⟨?_, ?_, ?_⟩
  · intro resp rcheck h
    simp [matchRedirectRule, h]
  · intro resp rcheck loc h1 h2
    unfold matchRedirectRule
    cases hq : urlParse resp.RequestURL with
    | none => rfl
    | some u =>
      split
      · rfl
      · simp [h1, h2]
  · intro resp p rule hmem hmatch
    simp only [Matcher.Match, List.mem_map, List.mem_filter]
    exact ⟨(p, rule), ⟨hmem, hmatch⟩, rfl⟩

/-- Witness for C7: a control character makes the request URL and the
location unparsable and the redirect predicate false; on the same
malformed response, a matcher that also holds a redirect rule still
reports the provider whose empty rule matches. -/
theorem claim7_malformed_url_local_witness :
    matchRedirectRule { RequestURL := "http://bad\nurl" } ⟨[80], [443], false⟩ = false ∧
    matchRedirectRule
      { Headers := [("location", "http://bad\nloc")], RequestURL := "http://a/" }
      ⟨[80], [443], false⟩ = false ∧
    "always" ∈ Matcher.Match
      ⟨[("redirprov", { RedirectCheck := some ⟨[80], [443], false⟩ }), ("always", emptyRule)]⟩
      { RequestURL := "http://bad\nurl" } := by
  refine ⟨?_, ?_, ?_⟩
  · exact (claim7_malformed_url_local ⟨[]⟩).1
      { RequestURL := "http://bad\nurl" } ⟨[80], [443], false⟩ (by decide)
  · exact (claim7_malformed_url_local ⟨[]⟩).2.1
      { Headers := [("location", "http://bad\nloc")], RequestURL := "http://a/" }
      ⟨[80], [443], false⟩ "http://bad\nloc" rfl (by decide)
  · exact (claim7_malformed_url_local
      ⟨[("redirprov", { RedirectCheck := some ⟨[80], [443], false⟩ }), ("always", emptyRule)]⟩).2.2
      { RequestURL := "http://bad\nurl" } "always" emptyRule (by simp) (by decide)

/-- Claim C8: whenever the provider identifiers of the rule mapping are
distinct (as Go map keys are), Match returns a duplicate-free list, and
when no rule matches it returns the empty list rather than an error. -/
theorem claim8_no_duplicates (m : Matcher) (resp : Response) :
    ((m.rules.map (fun pr => pr.1)).Nodup → (m.Match resp).Nodup) ∧
    ((∀ pr ∈ m.rules,
        matchRule { resp with Headers := lowerHeaders resp.Headers } pr.2 = false) →
      m.Match resp = []) := by
  constructor
  · intro h
    rw [Match_def]
    exact List.Nodup.sublist ((List.filter_sublist m.rules).map (fun pr => pr.1)) h
  · intro h
    rw [Match_def]
    rw [List.filter_eq_nil_iff.2 (by intro a ha; simp [h a ha])]
    rfl

/-- Witness for C8: a two-provider matcher with distinct identifiers
yields a duplicate-free match list, and a matcher whose only rule
rejects the response yields the empty list. -/
theorem claim8_no_duplicates_witness :
    (Matcher.Match ⟨[("a", emptyRule), ("b", emptyRule)]⟩ {}).Nodup ∧
    Matcher.Match ⟨[("strict", { StatusMin := 999, StatusMax := 999 })]⟩
      { StatusCode := 200 } = [] := by
  refine ⟨?_, ?_⟩
  · exact (claim8_no_duplicates ⟨[("a", emptyRule), ("b", emptyRule)]⟩ {}).1 (by decide)
  · exact (claim8_no_duplicates ⟨[("strict", { StatusMin := 999, StatusMax := 999 })]⟩
      { StatusCode := 200 }).2 (by decide)

/-- Claim C9: with root-required set, only the resolved location's path
is constrained; the location's host is never compared with the request
URL's host, so a redirect from example.com:2052 to any plain host
(including one different from example.com) with a root path and
default https port 443 in the target set satisfies the predicate. -/
theorem claim9_root_flag_ignores_host (host : String)
    (hh : host.data.all hostChar = true) :
    matchRedirectRule
      { StatusCode := 301,
        Headers := lowerHeaders [("Location", "https://" ++ host ++ "/")],
        RequestURL := "https://example.com:2052/" }
      ⟨[2052], [443], true⟩ = true := by
  obtain ⟨hl⟩ := host
  have hp1 : urlParse "https://example.com:2052/"
      = some ⟨"https", "example.com:2052", "/"⟩ := by decide
  have hp2 := urlParse_abs_host hl hh
  have hport1 : getPortFromURL ⟨"https", "example.com:2052", "/"⟩ = 2052 := by decide
  have hport2 := getPort_noColon hl hh
  have hlk : headerLookup (lowerHeaders [("Location", "https://" ++ (⟨hl⟩ : String) ++ "/")])
      "location" = some ("https://" ++ (⟨hl⟩ : String) ++ "/") := rfl
  simp only [matchRedirectRule, hp1, hport1, hlk, hp2]
  simp [URL.isAbs, hport2]

/-- Witness for C9 at the host other.example, which differs from the
request host example.com. -/
theorem claim9_root_flag_ignores_host_witness :
    matchRedirectRule
      { StatusCode := 301,
        Headers := lowerHeaders [("Location", "https://other.example/")],
        RequestURL := "https://example.com:2052/" }
      ⟨[2052], [443], true⟩ = true :=
  claim9_root_flag_ignores_host "other.example" (by decide)

/-- Claim C10: a one-part status spec that does not parse as an integer
is silently ignored: compilation succeeds with both bounds left at the
unbounded sentinel 0 and the rest of the rule empty, so the compiled
rule imposes no constraint at all at match time. -/
theorem claim10_unparsable_status_ignored (rc : String → Option RegexpM) :
    compileRule rc { HTTPStatusCode := "5xx" } = .ok emptyRule ∧
    ∀ resp : Response, matchRule resp emptyRule = true := by
  refine ⟨rfl, ?_⟩
  intro resp
  simp [matchRule, emptyRule]

end Cleanhttp
